import Mathlib

/-!
Shallow embedding of the midicast background cycle
(`src/packages/main/src/cycles/Background.ts`) together with the data
model it consumes (`src/packages/main/src/types.ts` and the shape of
decoded `midiconvert` songs).

Times are modelled as rationals: decoded note times and song durations
are in seconds (as in the source, where `midiconvert` reports seconds
and the code multiplies by 1000 to obtain milliseconds).
-/

namespace Midicast

/-- `PlaybackStatus` from `types.ts` (`PAUSED` is declared but unused). -/
inductive PlaybackStatus where
  | PLAYING
  | STOPPED
  | PAUSED
deriving DecidableEq, Repr

/-- `Song` from `types.ts`: the SongRef `{ label, url }`. -/
structure Song where
  label : String
  url : String
deriving DecidableEq, Repr

/-- A decoded note as produced by `MIDIConvert.parse(...).toJSON()`:
`midi` is the pitch, `time` and `duration` are in seconds. -/
structure Note where
  midi : ℕ
  velocity : ℚ
  duration : ℚ
  time : ℚ
deriving DecidableEq, Repr

/-- A decoded track: `id`, `name`, `instrumentFamily` (possibly
`undefined`, modelled as `none`) and the note list. -/
structure Track where
  id : ℕ
  name : String
  instrumentFamily : Option String
  notes : List Note
deriving DecidableEq, Repr

/-- A decoded song (`MIDIConvert.MIDI` after `toJSON()`): `duration` is
in seconds, `tracks` is the track array. -/
structure MIDI where
  duration : ℚ
  tracks : List Track
deriving DecidableEq, Repr

/-- The entry pushed into `notesByTrackIDByTime` for one note
(`Background.ts` lines 143-150): pitch, duration and time converted to
milliseconds. -/
structure NoteEvent where
  note : ℕ
  duration : ℚ
  velocity : ℚ
  time : ℚ
deriving DecidableEq, Repr

/-- The payload of a `CHANGE_ACTIVE_TRACKS` message as destructured at
`Background.ts` line 199: `{ query, active, id }`.  `query` is the
dispatch string: `"all"`, `"family"`, or otherwise the comma-separated
search text itself; `id` carries the family name for family queries. -/
structure TracksRequest where
  query : String
  active : Bool
  id : String
deriving DecidableEq, Repr

/-- JavaScript `String.prototype.includes`: substring containment. -/
def jsIncludes (s piece : String) : Bool :=
  s.toList.tails.any (fun t => piece.toList.isPrefixOf t)

/-- `Math.floor(note.time * 10) * 100` — the bucket key a note is filed
under (`Background.ts` line 133). -/
def roundedTime (n : Note) : ℤ :=
  ⌊n.time * 10⌋ * 100

/-- The object pushed for a note (`Background.ts` lines 143-150):
`{ note: note.midi, duration: note.duration * 1000, velocity, time: note.time * 1000 }`. -/
def noteEntry (n : Note) : NoteEvent :=
  { note := n.midi
    duration := n.duration * 1000
    velocity := n.velocity
    time := n.time * 1000 }

/-- The `notesByTrackIDByTime` dictionary, modelled as a total function
from bucket key and track index to the list of entries pushed there
(a missing key reads as `[]`, matching the `undefined` checks at the
use sites). -/
abbrev BucketMap := ℤ → ℕ → List NoteEvent

/-- One `push` into the dictionary (`Background.ts` lines 135-150):
the entry is appended at key `roundedTime note` for track index `tid`. -/
def pushNote (m : BucketMap) (tid : ℕ) (n : Note) : BucketMap :=
  fun k t =>
    if k = roundedTime n ∧ t = tid then m k t ++ [noteEntry n] else m k t

/-- The inner `track.notes.forEach` (`Background.ts` lines 130-152). -/
def trackFold (m : BucketMap) (tid : ℕ) (notes : List Note) : BucketMap :=
  notes.foldl (fun acc n => pushNote acc tid n) m

/-- The outer `namedMIDI.tracks.forEach((track, trackID) => ...)`,
with `i` the index of the first remaining track. -/
def buildFrom (m : BucketMap) (i : ℕ) : List Track → BucketMap
  | [] => m
  | tr :: rest => buildFrom (trackFold m i tr.notes) (i + 1) rest

/-- `notesByTrackIDByTime$` for one decoded song
(`Background.ts` lines 124-157). -/
def notesByTrackIDByTime (song : MIDI) : BucketMap :=
  buildFrom (fun _ _ => []) 0 song.tracks

/-- The tick offsets emitted by one `playCurrentTime$$` inner stream
(`Background.ts` lines 163-174): `Observable.interval(100)` counts
`0, 1, 2, ...` (here cut to a prefix of length `N`), each mapped to
`count * 100`, kept while `midiSong.duration * 1000 > time`. -/
def emittedTicks (durationSec : ℚ) (N : ℕ) : List ℕ :=
  ((List.range N).map (fun count => count * 100)).takeWhile
    (fun time => decide (durationSec * 1000 > (time : ℚ)))

/-- The single-track toggle (`Background.ts` lines 188-197): active
requests append `request.id`; inactive requests filter it out. -/
def toggleTracks (activeTrackIDs : List ℕ) (id : ℕ) (active : Bool) : List ℕ :=
  if active then activeTrackIDs ++ [id]
  else activeTrackIDs.filter (fun x => x ≠ id)

/-- All track IDs of a song (`allTrackIDs$`, `Background.ts` lines 182-184). -/
def trackIDs (song : MIDI) : List ℕ :=
  song.tracks.map (fun tr => tr.id)

/-- `oldActiveTrackIDs.filter(trackID => song.tracks[trackID].instrumentFamily !== id)`
(`Background.ts` lines 224-227).  Indexing `song.tracks[trackID]` with a
missing index faults in the source (property access on `undefined`),
modelled as `none`. -/
def keepFamilyMismatch (tracks : List Track) (famId : Option String) :
    List ℕ → Option (List ℕ)
  | [] => some []
  | id :: rest => do
      let tr ← tracks.get? id
      let rest' ← keepFamilyMismatch tracks famId rest
      pure (if tr.instrumentFamily ≠ famId then id :: rest' else rest')

/-- `oldActiveTrackIDs.filter(id => !queryPieces.some(piece => song.tracks[id].name.toLowerCase().includes(piece)))`
(`Background.ts` lines 248-253), with the same faulting indexing. -/
def keepNameMismatch (tracks : List Track) (pieces : List String) :
    List ℕ → Option (List ℕ)
  | [] => some []
  | id :: rest => do
      let tr ← tracks.get? id
      let rest' ← keepNameMismatch tracks pieces rest
      pure (if ¬ pieces.any (fun piece => jsIncludes tr.name.toLower piece)
            then id :: rest' else rest')

/-- The `oldActiveTrackIDs.forEach(id => { if (!activeTrackIDs.includes(id)) activeTrackIDs.push(id) })`
loop (`Background.ts` lines 240-246). -/
def pushMissing (acc : List ℕ) (old : List ℕ) : List ℕ :=
  old.foldl (fun acc id => if acc.contains id then acc else acc ++ [id]) acc

/-- The `CHANGE_ACTIVE_TRACKS` handler (`Background.ts` lines 198-258),
computing the next active-track list from the current song and the
current list.  `none` models the source faulting on a missing track
index in a deactivation branch. -/
def applyTracksQuery (song : MIDI) (oldActiveTrackIDs : List ℕ)
    (req : TracksRequest) : Option (List ℕ) :=
  if req.query = "all" then
    if req.active then some (song.tracks.map (fun tr => tr.id))
    else some []
  else if req.query = "family" then
    let famId : Option String := if req.id = "other" then none else some req.id
    if req.active then
      some (oldActiveTrackIDs ++
        (song.tracks.filter (fun tr => tr.instrumentFamily = famId)).map
          (fun tr => tr.id))
    else
      keepFamilyMismatch song.tracks famId oldActiveTrackIDs
  else
    let queryPieces : List String := (req.query.toLower).splitOn ","
    if req.active then
      let matched : List ℕ :=
        (song.tracks.filter (fun tr =>
          queryPieces.any (fun piece => jsIncludes tr.name.toLower piece))).map
            (fun tr => tr.id)
      some (pushMissing matched oldActiveTrackIDs)
    else
      keepNameMismatch song.tracks queryPieces oldActiveTrackIDs

/-- An inbound request relevant to the track-activation fold: a decoded
song arriving on `midiSong$` (the outcome of a `PLAY_SONG` ingestion,
which is external fetch + decode), a `CHANGE_TRACK_ACTIVE_STATUS`
toggle, or a `CHANGE_ACTIVE_TRACKS` query. -/
inductive BgRequest where
  | playSong (song : MIDI)
  | changeTrackActiveStatus (id : ℕ) (active : Bool)
  | changeActiveTracks (req : TracksRequest)
deriving DecidableEq, Repr

/-- The state of the `activeTrackIDs$` feedback loop: no value yet
(`withLatestFrom(activeTrackIDProxy)` drops requests arriving before the
first song), a current song with a current active list, or errored
(an exception thrown in a `map` callback terminates the stream). -/
inductive BgState where
  | noValue
  | running (song : MIDI) (activeTrackIDs : List ℕ)
  | errored
deriving DecidableEq, Repr

/-- One step of the track-activation fold (`Background.ts` lines
186-259): a new song resets the list to all its track IDs; toggles and
queries update it against the latest song and latest list. -/
def bgStep (st : BgState) (r : BgRequest) : BgState :=
  match st, r with
  | .errored, _ => .errored
  | _, .playSong m => .running m (trackIDs m)
  | .noValue, _ => .noValue
  | .running m act, .changeTrackActiveStatus id active =>
      .running m (toggleTracks act id active)
  | .running m act, .changeActiveTracks req =>
      match applyTracksQuery m act req with
      | some act' => .running m act'
      | none => .errored

/-- The track-activation fold over a request sequence, starting with no
song and no active list. -/
def bgRun (reqs : List BgRequest) : BgState :=
  reqs.foldl bgStep .noValue

/-- The subset invariant claimed of the fold state: in a running state,
every active track ID is a track ID of the current song. -/
def activeOK : BgState → Prop
  | .running m act => ∀ id ∈ act, id ∈ trackIDs m
  | _ => True

/-- Track IDs of a decoded song are index-derived (`midiconvert` assigns
`track.id` from the array position): the track at index `i` has `id = i`. -/
def wellFormedSong (m : MIDI) : Prop :=
  ∀ p ∈ m.tracks.enum, p.2.id = p.1

instance (m : MIDI) : Decidable (wellFormedSong m) := by
  unfold wellFormedSong; infer_instance

/-- Whether a song is well formed, as a per-request condition. -/
def reqWellFormed : BgRequest → Prop
  | .playSong m => wellFormedSong m
  | _ => True

instance (r : BgRequest) : Decidable (reqWellFormed r) := by
  cases r <;> (unfold reqWellFormed; infer_instance)

/-- Whether the request at position `p.1` of the sequence, if it is a
`CHANGE_TRACK_ACTIVE_STATUS {id, active: true}` toggle, names a track ID
of the song current when it is processed. -/
def toggleReqOK (reqs : List BgRequest) (p : ℕ × BgRequest) : Bool :=
  match p.2, bgRun (reqs.take p.1) with
  | .changeTrackActiveStatus id true, .running m _ => decide (id ∈ trackIDs m)
  | _, _ => true

/-- Every `CHANGE_TRACK_ACTIVE_STATUS {id, active: true}` in the
sequence names a track ID of the song current when it is processed. -/
def togglesValid (reqs : List BgRequest) : Prop :=
  ∀ p ∈ reqs.enum, toggleReqOK reqs p = true

instance (reqs : List BgRequest) : Decidable (togglesValid reqs) := by
  unfold togglesValid
  infer_instance

/-- The note dispatch for one tick (`note$`, `Background.ts` lines
263-282): look up the bucket for `time`, pull each active track's entry
list (`undefined` lookups are filtered out, i.e. contribute nothing),
flatten, and stamp each note with `time: startTime + note.time`. -/
def notesAtTick (m : BucketMap) (activeTrackIDs : List ℕ)
    (startTime : ℚ) (time : ℤ) : List NoteEvent :=
  ((activeTrackIDs.map (fun tid => m time tid)).flatten).map
    (fun n => { n with time := startTime + n.time })

/-- The full inbound alphabet of the background cycle, each message kind
of `Sources` plus the decoded-song arrivals produced by ingestion and
the instrument-availability signal. -/
inductive Event where
  | playSong (s : Song)
  | changeStatus (st : PlaybackStatus)
  | changeTrackActiveStatus (id : ℕ) (active : Bool)
  | changeActiveTracks (req : TracksRequest)
  | updateStatuses
  | availability (b : Bool)
  | songDecoded (m : MIDI)
deriving DecidableEq, Repr

/-- Whether an event triggers `playStartingTime$` (`Background.ts` lines
159-161): it is merged from `playRequest$` (a `CHANGE_PLAYBACK_STATUS`
whose payload is `PLAYING`) and `notesByTrackIDByTime$` (which fires
once per decoded song on `midiSong$`). -/
def isPlayTrigger : Event → Bool
  | .songDecoded _ => true
  | .changeStatus st => st = PlaybackStatus.PLAYING
  | _ => false

/-- `playStartingTime$` over a trace of events paired with the
`performance.now()` reading at which each is processed: every trigger is
mapped to the current monotonic time. -/
def playStartingTime (trace : List (Event × ℚ)) : List ℚ :=
  trace.filterMap (fun p => if isPlayTrigger p.1 then some p.2 else none)

/-- The `instrumentConnection` sink (`Background.ts` lines 325-328):
`Observable.merge(songRequest$, playRequest$).startWith(undefined)`.
`songRequest$` carries the `PLAY_SONG` payload (the SongRef); but
`playRequest$` carries the `CHANGE_PLAYBACK_STATUS` payload (the
`PLAYING` status value), so the merged element type is a sum.  The
leading `none` is the `startWith(undefined)`. -/
def instrumentConnection (evs : List Event) :
    List (Option (Song ⊕ PlaybackStatus)) :=
  none :: evs.filterMap (fun e =>
    match e with
    | .playSong s => some (some (Sum.inl s))
    | .changeStatus st =>
        if st = PlaybackStatus.PLAYING then some (some (Sum.inr st)) else none
    | _ => none)

/-- The contribution of the tracks `ts` (whose first element has index
`i`) to the bucket-map cell at key `k`, track index `t`. -/
def trackContrib (ts : List Track) (i t : ℕ) (k : ℤ) : List NoteEvent :=
  if i ≤ t then
    match ts.get? (t - i) with
    | some tr => (tr.notes.filter (fun n => roundedTime n = k)).map noteEntry
    | none => []
  else []

theorem trackFold_apply (notes : List Note) (m : BucketMap) (tid : ℕ)
    (k : ℤ) (t : ℕ) :
    trackFold m tid notes k t =
      m k t ++
        (if t = tid then
          (notes.filter (fun n => roundedTime n = k)).map noteEntry
         else []) := by
  induction notes generalizing m with
  | nil => simp [trackFold]
  | cons n ns ih =>
      simp only [trackFold, List.foldl_cons] at *
      rw [ih]
      by_cases ht : t = tid
      · subst ht
        by_cases hk : k = roundedTime n
        · have hd : (decide (roundedTime n = k)) = true := by
            simp only [decide_eq_true_eq]; exact hk.symm
          simp [pushNote, hk, List.filter_cons, hd, List.append_assoc]
        · have hd : (decide (roundedTime n = k)) = false := by
            simp only [decide_eq_false_iff_not]
            exact fun h => hk h.symm
          simp [pushNote, hk, List.filter_cons, hd]
      · simp [pushNote, ht]

theorem buildFrom_apply (ts : List Track) (m : BucketMap) (i : ℕ)
    (k : ℤ) (t : ℕ) :
    buildFrom m i ts k t = m k t ++ trackContrib ts i t k := by
  induction ts generalizing m i with
  | nil => simp [buildFrom, trackContrib]
  | cons tr rest ih =>
      simp only [buildFrom]
      rw [ih, trackFold_apply]
      rw [List.append_assoc]
      congr 1
      by_cases ht : t = i
      · subst ht
        have h1 : ¬ (t + 1 ≤ t) := by omega
        simp [trackContrib, h1, Nat.sub_self]
      · rcases Nat.lt_or_ge t i with hlt | hge
        · have h1 : ¬ (i ≤ t) := by omega
          have h2 : ¬ (i + 1 ≤ t) := by omega
          simp [trackContrib, h1, h2, ht]
        · have hgt : i < t := lt_of_le_of_ne hge (fun h => ht h.symm)
          have h1 : i ≤ t := le_of_lt hgt
          have h2 : i + 1 ≤ t := hgt
          have h3 : t - i = (t - (i + 1)) + 1 := by omega
          simp [trackContrib, h1, h2, h3, ht]

theorem notesByTrackIDByTime_apply (song : MIDI) (k : ℤ) (tid : ℕ) :
    notesByTrackIDByTime song k tid =
      ((song.tracks.get? tid).map (fun tr =>
        (tr.notes.filter (fun n => roundedTime n = k)).map noteEntry)).getD [] := by
  rw [notesByTrackIDByTime, buildFrom_apply]
  simp only [List.nil_append]
  have h0 : (0 : ℕ) ≤ tid := Nat.zero_le tid
  simp only [trackContrib, h0, if_pos, Nat.sub_zero]
  cases song.tracks.get? tid <;> simp

/-- Claim C4: the bucket-map construction assigns every note of every
track to exactly one bucket — the cell at key `k` for track index `tid`
holds exactly the entries of that track's notes whose rounded onset is
`k` — and the key assigned, `roundedTime`, equals
`⌊timeMs / 100⌋ * 100` where `timeMs = note.time * 1000`. -/
theorem c4_bucket_quantization (song : MIDI) (k : ℤ) (tid : ℕ) (n : Note) :
    notesByTrackIDByTime song k tid =
      ((song.tracks.get? tid).map (fun tr =>
        (tr.notes.filter (fun x => roundedTime x = k)).map noteEntry)).getD [] ∧
    roundedTime n = ⌊n.time * 1000 / 100⌋ * 100 := by
  refine ⟨notesByTrackIDByTime_apply song k tid, ?_⟩
  have h : n.time * 1000 / 100 = n.time * 10 := by ring
  rw [roundedTime, h]

theorem takeWhile_range' (q : ℕ → Bool) (K : ℕ)
    (hq : ∀ i, q i = true ↔ i < K) :
    ∀ n s, List.takeWhile q (List.range' s n) =
      List.range' s (min n (K - s)) := by
  intro n
  induction n with
  | zero => intro s; simp
  | succ n ih =>
      intro s
      rw [List.range'_succ, List.takeWhile_cons]
      by_cases hs : q s = true
      · have hsK : s < K := (hq s).1 hs
        have hmin : min (n + 1) (K - s) = min n (K - (s + 1)) + 1 := by omega
        rw [if_pos hs, ih (s + 1), hmin, List.range'_succ]
      · have hsK : ¬ s < K := fun h => hs ((hq s).2 h)
        have hKs : K - s = 0 := by omega
        rw [if_neg hs, hKs]
        simp

/-- The number of ticks one full playback run of a song of `durationSec`
seconds emits: the least count whose offset reaches the duration. -/
def numTicks (durationSec : ℚ) : ℕ := ⌈durationSec * 10⌉₊

theorem tickPred_iff (d : ℚ) (i : ℕ) :
    (decide (d * 1000 > ((i * 100 : ℕ) : ℚ)) = true) ↔ i < numTicks d := by
  rw [decide_eq_true_eq, numTicks, Nat.lt_ceil]
  have hc : ((i * 100 : ℕ) : ℚ) = (i : ℚ) * 100 := by push_cast; ring
  rw [hc]
  constructor
  · intro h; nlinarith
  · intro h; nlinarith

theorem emittedTicks_eq (d : ℚ) (N : ℕ) (h : d * 1000 ≤ 100 * N) :
    emittedTicks d N = (List.range (numTicks d)).map (fun i => i * 100) := by
  have hK : numTicks d ≤ N := by
    rw [numTicks, Nat.ceil_le]
    have : (100 : ℚ) * N = (N : ℚ) * 100 := by ring
    nlinarith
  rw [emittedTicks, List.takeWhile_map, List.range_eq_range']
  simp only [Function.comp_def]
  rw [takeWhile_range' _ (numTicks d) (fun i => tickPred_iff d i)]
  rw [Nat.sub_zero, Nat.min_eq_right hK, ← List.range_eq_range']

/-- Claim C3: for a song of duration `d` seconds (`D = d * 1000` ms),
one full playback run emits exactly the ticks `0, 100, ..., k*100` with
`k*100 < D` (the prefix of `interval(100)` offsets of length
`numTicks d`), and every emitted tick is strictly below `D` — the
`takeWhile` terminates the run before any offset `≥ D` is emitted. -/
theorem c3_tick_coverage (d : ℚ) (N : ℕ) (h : d * 1000 ≤ 100 * N) :
    emittedTicks d N = (List.range (numTicks d)).map (fun i => i * 100) ∧
    ∀ t ∈ emittedTicks d N, (t : ℚ) < d * 1000 := by
  refine ⟨emittedTicks_eq d N h, ?_⟩
  intro t ht
  have := List.mem_takeWhile_imp ht
  rw [decide_eq_true_eq] at this
  exact this

/-- Witness for C3 at the spec's example: a 500 ms song (`d = 1/2`)
with stream prefix length 10 emits exactly `0, 100, 200, 300, 400`. -/
theorem c3_tick_coverage_witness :
    (1 / 2 : ℚ) * 1000 ≤ 100 * ((10 : ℕ) : ℚ) ∧
    emittedTicks (1 / 2) 10 = [0, 100, 200, 300, 400] := by
  have h : (1 / 2 : ℚ) * 1000 ≤ 100 * ((10 : ℕ) : ℚ) := by norm_num
  refine ⟨h, ?_⟩
  rw [(c3_tick_coverage (1 / 2) 10 h).1]
  have h5 : numTicks (1 / 2) = 5 := by
    rw [numTicks]
    norm_num
  rw [h5]
  rfl

theorem mem_pushMissing (old : List ℕ) :
    ∀ (acc : List ℕ) (x : ℕ), x ∈ pushMissing acc old ↔ x ∈ acc ∨ x ∈ old := by
  induction old with
  | nil => intro acc x; simp [pushMissing]
  | cons id rest ih =>
      intro acc x
      have hstep : pushMissing acc (id :: rest) =
          pushMissing (if acc.contains id then acc else acc ++ [id]) rest := rfl
      rw [hstep, ih]
      by_cases hc : acc.contains id = true
      · have hid : id ∈ acc := by simpa using hc
        rw [if_pos hc]
        simp only [List.mem_cons]
        constructor
        · rintro (h | h)
          · exact Or.inl h
          · exact Or.inr (Or.inr h)
        · rintro (h | h | h)
          · exact Or.inl h
          · exact Or.inl (h ▸ hid)
          · exact Or.inr h
      · rw [if_neg hc]
        simp only [List.mem_append, List.mem_singleton, List.mem_cons]
        tauto

theorem keepFamilyMismatch_some (tracks : List Track) (famId : Option String) :
    ∀ old : List ℕ, (∀ id ∈ old, (tracks.get? id).isSome) →
      ∃ r, keepFamilyMismatch tracks famId old = some r ∧ ∀ x ∈ r, x ∈ old := by
  intro old
  induction old with
  | nil => intro _; exact ⟨[], rfl, by simp⟩
  | cons id rest ih =>
      intro h
      obtain ⟨tr, htr⟩ := Option.isSome_iff_exists.mp (h id (by simp))
      obtain ⟨r, hr, hsub⟩ := ih (fun i hi => h i (by simp [hi]))
      refine ⟨if tr.instrumentFamily ≠ famId then id :: r else r, ?_, ?_⟩
      · simp only [keepFamilyMismatch, htr, hr]
        rfl
      · intro x hx
        by_cases hf : tr.instrumentFamily ≠ famId
        · rw [if_pos hf] at hx
          rcases List.mem_cons.mp hx with h' | h'
          · simp [h']
          · exact List.mem_cons_of_mem _ (hsub x h')
        · rw [if_neg hf] at hx
          exact List.mem_cons_of_mem _ (hsub x hx)

theorem keepFamilyMismatch_all_keep (tracks : List Track)
    (famId : Option String) :
    ∀ old : List ℕ,
      (∀ id ∈ old, ∃ tr, tracks.get? id = some tr ∧
        tr.instrumentFamily ≠ famId) →
      keepFamilyMismatch tracks famId old = some old := by
  intro old
  induction old with
  | nil => intro _; rfl
  | cons id rest ih =>
      intro h
      obtain ⟨tr, htr, hne⟩ := h id (by simp)
      have hrest := ih (fun i hi => h i (by simp [hi]))
      simp only [keepFamilyMismatch, htr, hrest]
      exact congrArg some (if_pos hne)

theorem keepNameMismatch_some (tracks : List Track) (pieces : List String) :
    ∀ old : List ℕ, (∀ id ∈ old, (tracks.get? id).isSome) →
      ∃ r, keepNameMismatch tracks pieces old = some r ∧ ∀ x ∈ r, x ∈ old := by
  intro old
  induction old with
  | nil => intro _; exact ⟨[], rfl, by simp⟩
  | cons id rest ih =>
      intro h
      obtain ⟨tr, htr⟩ := Option.isSome_iff_exists.mp (h id (by simp))
      obtain ⟨r, hr, hsub⟩ := ih (fun i hi => h i (by simp [hi]))
      refine ⟨if ¬ pieces.any (fun piece => jsIncludes tr.name.toLower piece)
              then id :: r else r, ?_, ?_⟩
      · simp only [keepNameMismatch, htr, hr]
        rfl
      · intro x hx
        by_cases hf : ¬ pieces.any (fun piece => jsIncludes tr.name.toLower piece)
        · rw [if_pos hf] at hx
          rcases List.mem_cons.mp hx with h' | h'
          · simp [h']
          · exact List.mem_cons_of_mem _ (hsub x h')
        · rw [if_neg hf] at hx
          exact List.mem_cons_of_mem _ (hsub x hx)

theorem keepNameMismatch_all_keep (tracks : List Track) (pieces : List String) :
    ∀ old : List ℕ,
      (∀ id ∈ old, ∃ tr, tracks.get? id = some tr ∧
        ¬ pieces.any (fun piece => jsIncludes tr.name.toLower piece) = true) →
      keepNameMismatch tracks pieces old = some old := by
  intro old
  induction old with
  | nil => intro _; rfl
  | cons id rest ih =>
      intro h
      obtain ⟨tr, htr, hne⟩ := h id (by simp)
      have hrest := ih (fun i hi => h i (by simp [hi]))
      simp only [keepNameMismatch, htr, hrest]
      exact congrArg some (if_pos hne)

theorem wellFormedSong_get {m : MIDI} (hwf : wellFormedSong m) {id : ℕ}
    (hid : id ∈ trackIDs m) : ∃ tr, m.tracks.get? id = some tr ∧ tr.id = id := by
  rw [trackIDs, List.mem_map] at hid
  obtain ⟨tr, htr, hidtr⟩ := hid
  obtain ⟨n, hn⟩ := List.mem_iff_get?.mp htr
  have hmem : (n, tr) ∈ m.tracks.enum := by
    rw [List.mk_mem_enum_iff_getElem?, ← List.get?_eq_getElem?]
    exact hn
  have : tr.id = n := hwf (n, tr) hmem
  refine ⟨tr, ?_, hidtr⟩
  rw [← hidtr, this]
  exact hn

/-- Under the subset invariant and index-derived track IDs, every
`CHANGE_ACTIVE_TRACKS` query computes a new active list without
faulting, and the new list again only holds track IDs of the song. -/
theorem applyTracksQuery_total (song : MIDI) (old : List ℕ)
    (req : TracksRequest) (hwf : wellFormedSong song)
    (hsub : ∀ id ∈ old, id ∈ trackIDs song) :
    ∃ r, applyTracksQuery song old req = some r ∧
      ∀ x ∈ r, x ∈ trackIDs song := by
  have hindex : ∀ id ∈ old, (song.tracks.get? id).isSome := by
    intro id hid
    obtain ⟨tr, htr, _⟩ := wellFormedSong_get hwf (hsub id hid)
    rw [htr]
    rfl
  rw [applyTracksQuery]
  by_cases hall : req.query = "all"
  · rw [if_pos hall]
    cases hact : req.active
    · exact ⟨[], rfl, by simp⟩
    · exact ⟨_, rfl, fun x hx => hx⟩
  · rw [if_neg hall]
    by_cases hfam : req.query = "family"
    · rw [if_pos hfam]
      cases hact : req.active
      · simp only [Bool.false_eq_true, if_false]
        obtain ⟨r, hr, hrsub⟩ :=
          keepFamilyMismatch_some song.tracks
            (if req.id = "other" then none else some req.id) old hindex
        exact ⟨r, hr, fun x hx => hsub x (hrsub x hx)⟩
      · simp only [if_true]
        refine ⟨_, rfl, ?_⟩
        intro x hx
        rcases List.mem_append.mp hx with h | h
        · exact hsub x h
        · rw [List.mem_map] at h
          obtain ⟨tr, htr, hidtr⟩ := h
          rw [trackIDs, List.mem_map]
          exact ⟨tr, (List.mem_filter.mp htr).1, hidtr⟩
    · rw [if_neg hfam]
      cases hact : req.active
      · simp only [Bool.false_eq_true, if_false]
        obtain ⟨r, hr, hrsub⟩ :=
          keepNameMismatch_some song.tracks ((req.query.toLower).splitOn ",")
            old hindex
        exact ⟨r, hr, fun x hx => hsub x (hrsub x hx)⟩
      · simp only [if_true]
        refine ⟨_, rfl, ?_⟩
        intro x hx
        rcases (mem_pushMissing old _ x).mp hx with h | h
        · rw [List.mem_map] at h
          obtain ⟨tr, htr, hidtr⟩ := h
          rw [trackIDs, List.mem_map]
          exact ⟨tr, (List.mem_filter.mp htr).1, hidtr⟩
        · exact hsub x h

/-- Claim C2 fails on the code: the toggle appends unconditionally, so
toggling `{id: 1, active: true}` on a list already holding `1` appends a
duplicate instead of being a no-op. -/
theorem c2_toggle_counterexample :
    toggleTracks [1] 1 true = [1, 1] ∧
    toggleTracks [1] 1 true ≠ [1] ∧
    List.count 1 (toggleTracks [1] 1 true) = 2 := by
  refine ⟨rfl, ?_, by decide⟩
  decide

/-- Claim C2, amended: an `active: true` toggle appends `id`
unconditionally (so when `id` is already present a duplicate
accumulates), an `active: false` toggle removes every occurrence of
`id` (a no-op when absent), and only when `id` is absent does the
`active: true` toggle behave as pure insertion. -/
theorem c2_toggle_amended (s : List ℕ) (id x : ℕ) :
    toggleTracks s id true = s ++ [id] ∧
    (x ∈ toggleTracks s id false ↔ x ∈ s ∧ x ≠ id) ∧
    (id ∈ s → List.count id (toggleTracks s id true) =
      List.count id s + 1) := by
  refine ⟨rfl, ?_, ?_⟩
  · simp [toggleTracks, List.mem_filter]
  · intro _
    simp [toggleTracks]

/-- Witness for the amended C2 at a concrete duplicate-producing input. -/
theorem c2_toggle_amended_witness :
    toggleTracks [1] 1 true = [1] ++ [1] ∧
    ((1 : ℕ) ∈ ([1] : List ℕ) ∧
      List.count 1 (toggleTracks [1] 1 true) = List.count 1 [1] + 1) :=
  ⟨(c2_toggle_amended [1] 1 0).1,
   by decide, (c2_toggle_amended [1] 1 0).2.2 (by decide)⟩

/-- Claim C6: a substring query (`query` neither `"all"` nor
`"family"`) with `active: true` never faults and yields exactly the
union of the IDs of tracks whose lower-cased name contains at least one
comma-separated term with the previously-active track IDs; in
particular a previously-active track whose name matches no term stays
in the result. -/
theorem c6_substring_activation (song : MIDI) (old : List ℕ)
    (q fid : String) (hq1 : q ≠ "all") (hq2 : q ≠ "family") (x : ℕ) :
    ∃ r, applyTracksQuery song old ⟨q, true, fid⟩ = some r ∧
      (x ∈ r ↔
        x ∈ (song.tracks.filter (fun tr =>
              ((q.toLower).splitOn ",").any
                (fun piece => jsIncludes tr.name.toLower piece))).map
            (fun tr => tr.id) ∨
        x ∈ old) := by
  refine ⟨pushMissing ((song.tracks.filter (fun tr =>
      ((q.toLower).splitOn ",").any
        (fun piece => jsIncludes tr.name.toLower piece))).map
      (fun tr => tr.id)) old, ?_, mem_pushMissing old _ x⟩
  simp only [applyTracksQuery]
  rw [if_neg hq1, if_neg hq2]
  exact if_pos trivial

/-- Witness for C6 at the spec's example shape: active set `{2}` whose
track name matches no term, query `"piano"` matching the track named
`"Grand Piano"` (ID 5). -/
theorem c6_substring_activation_witness :
    ∃ r, applyTracksQuery ⟨2, [⟨5, "Grand Piano", none, []⟩]⟩ [2]
        ⟨"piano", true, ""⟩ = some r ∧
      ((2 : ℕ) ∈ r ↔
        2 ∈ (([⟨5, "Grand Piano", none, []⟩] : List Track).filter (fun tr =>
              (("piano".toLower).splitOn ",").any
                (fun piece => jsIncludes tr.name.toLower piece))).map
            (fun tr => tr.id) ∨
        (2 : ℕ) ∈ ([2] : List ℕ)) :=
  c6_substring_activation ⟨2, [⟨5, "Grand Piano", none, []⟩]⟩ [2]
    "piano" "" (by decide) (by decide) 2

/-- Claim C7 fails on the code at the list level: family activation
concatenates the family's track IDs onto the current list each time, so
applying the same `{query: "family", active: true}` request twice
duplicates those IDs rather than reproducing the once-applied list. -/
theorem c7_family_counterexample :
    applyTracksQuery ⟨2, [⟨0, "melody", some "strings", []⟩]⟩ []
      ⟨"family", true, "strings"⟩ = some [0] ∧
    applyTracksQuery ⟨2, [⟨0, "melody", some "strings", []⟩]⟩ [0]
      ⟨"family", true, "strings"⟩ = some [0, 0] ∧
    ([0, 0] : List ℕ) ≠ [0] := by
  refine ⟨rfl, rfl, by decide⟩

/-- Claim C7, amended: family activation is idempotent only up to
membership — applying `{query: "family", active: true}` twice yields a
list with exactly the same track IDs as applying it once, though the
underlying list may hold duplicates. -/
theorem c7_family_amended (song : MIDI) (old : List ℕ) (fid : String) :
    ∃ r₁, applyTracksQuery song old ⟨"family", true, fid⟩ = some r₁ ∧
      ∃ r₂, applyTracksQuery song r₁ ⟨"family", true, fid⟩ = some r₂ ∧
        ∀ x, x ∈ r₂ ↔ x ∈ r₁ := by
  have hall : ("family" : String) ≠ "all" := by decide
  have key : ∀ cur : List ℕ,
      applyTracksQuery song cur ⟨"family", true, fid⟩ =
        some (cur ++ (song.tracks.filter (fun tr =>
          tr.instrumentFamily =
            (if fid = "other" then none else some fid))).map
              (fun tr => tr.id)) := by
    intro cur
    simp only [applyTracksQuery]
    rw [if_neg hall]
    exact if_pos trivial
  refine ⟨_, key old, _, key _, ?_⟩
  intro x
  simp only [List.mem_append]
  tauto

/-- A `CHANGE_ACTIVE_TRACKS` request whose family (resp. substring
terms) matches no track of the song. -/
def queryMatchesNoTrack (song : MIDI) (req : TracksRequest) : Prop :=
  if req.query = "all" then False
  else if req.query = "family" then
    ∀ tr ∈ song.tracks,
      tr.instrumentFamily ≠ (if req.id = "other" then none else some req.id)
  else
    ∀ tr ∈ song.tracks,
      ((req.query.toLower).splitOn ",").any
        (fun piece => jsIncludes tr.name.toLower piece) = false

instance (song : MIDI) (req : TracksRequest) :
    Decidable (queryMatchesNoTrack song req) := by
  unfold queryMatchesNoTrack
  infer_instance

/-- Claim C8: under the subset invariant (and index-derived track IDs),
every `CHANGE_ACTIVE_TRACKS` request computes without faulting — in
particular the family and substring deactivation branches, which index
`song.tracks` by each active track ID, are total — and a request whose
family or substring terms match no track yields a list with unchanged
membership or the empty list. -/
theorem c8_no_match_safe (song : MIDI) (old : List ℕ) (req : TracksRequest)
    (hwf : wellFormedSong song) (hsub : ∀ id ∈ old, id ∈ trackIDs song) :
    (applyTracksQuery song old req).isSome = true ∧
    (queryMatchesNoTrack song req →
      ∃ r, applyTracksQuery song old req = some r ∧
        ((∀ x, x ∈ r ↔ x ∈ old) ∨ r = [])) := by
  constructor
  · obtain ⟨r, hr, _⟩ := applyTracksQuery_total song old req hwf hsub
    rw [hr]
    rfl
  · intro hnm
    have hindex : ∀ id ∈ old, ∃ tr, song.tracks.get? id = some tr ∧ tr.id = id :=
      fun id hid => wellFormedSong_get hwf (hsub id hid)
    by_cases hall : req.query = "all"
    · rw [queryMatchesNoTrack, if_pos hall] at hnm
      exact hnm.elim
    · by_cases hfam : req.query = "family"
      · rw [queryMatchesNoTrack, if_neg hall, if_pos hfam] at hnm
        simp only [applyTracksQuery, if_neg hall, if_pos hfam]
        cases hact : req.active with
        | false =>
            have hkeep := keepFamilyMismatch_all_keep song.tracks
              (if req.id = "other" then none else some req.id) old
              (fun id hid => by
                obtain ⟨tr, htr, _⟩ := hindex id hid
                exact ⟨tr, htr, hnm tr (List.get?_mem htr)⟩)
            refine ⟨old, ?_, Or.inl fun x => Iff.rfl⟩
            exact (if_neg (by decide)).trans hkeep
        | true =>
            have hfil : song.tracks.filter (fun tr =>
                tr.instrumentFamily =
                  (if req.id = "other" then none else some req.id)) = [] :=
              List.filter_eq_nil_iff.mpr (fun tr htr => by
                simpa using hnm tr htr)
            refine ⟨old, ?_, Or.inl fun x => Iff.rfl⟩
            rw [if_pos rfl, hfil]
            simp
      · rw [queryMatchesNoTrack, if_neg hall, if_neg hfam] at hnm
        simp only [applyTracksQuery, if_neg hall, if_neg hfam]
        cases hact : req.active with
        | false =>
            have hkeep := keepNameMismatch_all_keep song.tracks
              ((req.query.toLower).splitOn ",") old
              (fun id hid => by
                obtain ⟨tr, htr, _⟩ := hindex id hid
                refine ⟨tr, htr, ?_⟩
                rw [hnm tr (List.get?_mem htr)]
                decide)
            refine ⟨old, ?_, Or.inl fun x => Iff.rfl⟩
            exact (if_neg (by decide)).trans hkeep
        | true =>
            have hfil : song.tracks.filter (fun tr =>
                ((req.query.toLower).splitOn ",").any
                  (fun piece => jsIncludes tr.name.toLower piece)) = [] :=
              List.filter_eq_nil_iff.mpr (fun tr htr => by
                simp [hnm tr htr])
            refine ⟨pushMissing [] old, ?_, Or.inl fun x => ?_⟩
            · rw [if_pos rfl, hfil]
              rfl
            · rw [mem_pushMissing]
              simp

/-- Witness for C8: a one-track song (family `"strings"`), active set
`{0}`, and a family deactivation for the unmatched family `"brass"`:
no fault, active set unchanged. -/
theorem c8_no_match_safe_witness :
    (applyTracksQuery ⟨2, [⟨0, "melody", some "strings", []⟩]⟩ [0]
      ⟨"family", false, "brass"⟩).isSome = true ∧
    ∃ r, applyTracksQuery ⟨2, [⟨0, "melody", some "strings", []⟩]⟩ [0]
        ⟨"family", false, "brass"⟩ = some r ∧
      ((∀ x, x ∈ r ↔ x ∈ ([0] : List ℕ)) ∨ r = []) :=
  ⟨(c8_no_match_safe ⟨2, [⟨0, "melody", some "strings", []⟩]⟩ [0]
      ⟨"family", false, "brass"⟩ (by decide) (by decide)).1,
   (c8_no_match_safe ⟨2, [⟨0, "melody", some "strings", []⟩]⟩ [0]
      ⟨"family", false, "brass"⟩ (by decide) (by decide)).2 (by decide)⟩

/-- The internal invariant of the track-activation fold: in a running
state the current song has index-derived IDs and the active list only
holds its track IDs. -/
def stateOK : BgState → Prop
  | .running m act => wellFormedSong m ∧ ∀ id ∈ act, id ∈ trackIDs m
  | _ => True

theorem stateOK_step (st : BgState) (r : BgRequest) (hst : stateOK st)
    (hr : reqWellFormed r)
    (htog : ∀ id, r = .changeTrackActiveStatus id true →
      ∀ m act, st = .running m act → id ∈ trackIDs m) :
    stateOK (bgStep st r) := by
  cases st with
  | errored => cases r <;> exact trivial
  | noValue =>
      cases r with
      | playSong m => exact ⟨hr, fun id h => h⟩
      | changeTrackActiveStatus id active => exact trivial
      | changeActiveTracks req => exact trivial
  | running m act =>
      obtain ⟨hwf, hsubset⟩ := hst
      cases r with
      | playSong m' => exact ⟨hr, fun id h => h⟩
      | changeTrackActiveStatus id active =>
          cases active with
          | true =>
              refine ⟨hwf, fun x hx => ?_⟩
              rcases List.mem_append.mp hx with h | h
              · exact hsubset x h
              · rw [List.mem_singleton] at h
                exact h ▸ htog id rfl m act rfl
          | false =>
              refine ⟨hwf, fun x hx => ?_⟩
              exact hsubset x (List.mem_of_mem_filter hx)
      | changeActiveTracks req =>
          obtain ⟨r', hr', hsub'⟩ := applyTracksQuery_total m act req hwf hsubset
          simp only [bgStep, hr']
          exact ⟨hwf, hsub'⟩

/-- Claim C1 fails on the code as stated: a
`CHANGE_TRACK_ACTIVE_STATUS {id: 5, active: true}` toggle for an ID the
one-track song does not have is appended anyway, so the active list
`[0, 5]` is not a subset of the song's track IDs `[0]`. -/
theorem c1_subset_counterexample :
    bgRun [.playSong ⟨2, [⟨0, "melody", some "strings", []⟩]⟩,
           .changeTrackActiveStatus 5 true] =
      .running ⟨2, [⟨0, "melody", some "strings", []⟩]⟩ [0, 5] ∧
    (5 : ℕ) ∈ ([0, 5] : List ℕ) ∧
    (5 : ℕ) ∉ trackIDs ⟨2, [⟨0, "melody", some "strings", []⟩]⟩ :=
  ⟨rfl, by decide, by decide⟩

/-- Claim C1, amended: provided every decoded song has index-derived
track IDs and every single-track `active: true` toggle names a track ID
of the then-current song, the active list maintained by the fold is at
all times (after every prefix of the request sequence) a subset of the
track IDs of the current song. -/
theorem c1_subset_invariant_amended (reqs : List BgRequest)
    (hwf : ∀ r ∈ reqs, reqWellFormed r) (htog : togglesValid reqs) (n : ℕ) :
    activeOK (bgRun (reqs.take n)) := by
  have key : ∀ k, stateOK (bgRun (reqs.take k)) := by
    intro k
    induction k with
    | zero => exact trivial
    | succ k ih =>
        rcases Nat.lt_or_ge k reqs.length with hk | hk
        · obtain ⟨r, hget⟩ : ∃ r, reqs.get? k = some r := by
            rw [List.get?_eq_get hk]
            exact ⟨_, rfl⟩
          have htake : reqs.take (k + 1) = reqs.take k ++ [r] := by
            rw [List.take_succ, ← List.get?_eq_getElem?, hget]
            rfl
          rw [htake, bgRun, List.foldl_append]
          show stateOK (bgStep (bgRun (reqs.take k)) r)
          apply stateOK_step _ _ ih (hwf r (List.get?_mem hget))
          intro id hrid m act hstate
          have hmem : (k, r) ∈ reqs.enum := by
            rw [List.mk_mem_enum_iff_getElem?, ← List.get?_eq_getElem?]
            exact hget
          have h2 := htog (k, r) hmem
          rw [toggleReqOK] at h2
          simp only [hrid, hstate] at h2
          exact of_decide_eq_true h2
        · have heq : reqs.take (k + 1) = reqs.take k := by
            rw [List.take_of_length_le hk,
              List.take_of_length_le (le_trans hk (Nat.le_succ k))]
          rw [heq]
          exact ih
  have h := key n
  revert h
  cases bgRun (reqs.take n) with
  | noValue => exact fun _ => trivial
  | errored => exact fun _ => trivial
  | running m act => exact fun h => h.2

/-- Witness for the amended C1: a play-song request followed by a valid
toggle for track 0. -/
theorem c1_subset_invariant_amended_witness :
    activeOK (bgRun (([.playSong ⟨2, [⟨0, "melody", some "strings", []⟩]⟩,
      .changeTrackActiveStatus 0 true] : List BgRequest).take 2)) :=
  c1_subset_invariant_amended
    [.playSong ⟨2, [⟨0, "melody", some "strings", []⟩]⟩,
     .changeTrackActiveStatus 0 true]
    (by decide) (by decide) 2

/-- Claim C5: every note the dispatcher emits at tick `time` originates
from a note of an active track whose bucket key (`roundedTime`) is
`time`, and is stamped with absolute time
`startTime + note.time * 1000` — the raw (unquantized) onset in
milliseconds, not the bucket key. -/
theorem c5_dispatch_raw_time (song : MIDI) (active : List ℕ)
    (startTime : ℚ) (time : ℤ) (d : NoteEvent)
    (hd : d ∈ notesAtTick (notesByTrackIDByTime song) active startTime time) :
    ∃ tid ∈ active, ∃ tr, song.tracks.get? tid = some tr ∧
      ∃ n ∈ tr.notes, roundedTime n = time ∧
        d = { note := n.midi, duration := n.duration * 1000,
              velocity := n.velocity,
              time := startTime + n.time * 1000 } := by
  rw [notesAtTick] at hd
  rw [List.mem_map] at hd
  obtain ⟨e, he, hde⟩ := hd
  rw [List.mem_flatten] at he
  obtain ⟨l, hl, hel⟩ := he
  rw [List.mem_map] at hl
  obtain ⟨tid, htid, hltid⟩ := hl
  rw [← hltid, notesByTrackIDByTime_apply] at hel
  cases hget : song.tracks.get? tid with
  | none => rw [hget] at hel; simp at hel
  | some tr =>
      rw [hget] at hel
      have hel' : e ∈ (tr.notes.filter
          (fun n => decide (roundedTime n = time))).map noteEntry := hel
      rw [List.mem_map] at hel'
      obtain ⟨n, hn, hne⟩ := hel'
      rw [List.mem_filter] at hn
      refine ⟨tid, htid, tr, hget, n, hn.1, of_decide_eq_true hn.2, ?_⟩
      rw [← hde, ← hne]
      rfl

/-- The spec's example song for the dispatcher: one track with one note
at 250 ms (`time = 1/4` s, duration 100 ms), song duration 500 ms. -/
def c5song : MIDI := ⟨1/2, [⟨0, "melody", none, [⟨60, 1, 1/10, 1/4⟩]⟩]⟩

/-- The one note of `c5song`. -/
def c5note : Note := ⟨60, 1, 1/10, 1/4⟩

/-- The entry the dispatcher emits for `c5note` at start time 1000. -/
def c5out : NoteEvent := ⟨60, (1/10 : ℚ) * 1000, 1, (1000 : ℚ) + (1/4) * 1000⟩

/-- Witness for C5 at the spec's example: the note at 250 ms
(`time = 1/4` s) lands in bucket 200 and is dispatched at tick 200 with
absolute time `1000 + 250 = 1250`, not `1000 + 200 = 1200`. -/
theorem c5_dispatch_raw_time_witness :
    (∃ tid ∈ ([0] : List ℕ), ∃ tr, c5song.tracks.get? tid = some tr ∧
      ∃ n ∈ tr.notes, roundedTime n = 200 ∧
        c5out = { note := n.midi, duration := n.duration * 1000,
                  velocity := n.velocity,
                  time := (1000 : ℚ) + n.time * 1000 }) ∧
    c5out.time = 1250 ∧ ((1000 : ℚ) + 200 ≠ 1250) := by
  have hr : roundedTime c5note = 200 := by
    rw [roundedTime]
    norm_num [c5note]
  have hbm : notesByTrackIDByTime c5song 200 0 =
      ([c5note].filter (fun n => decide (roundedTime n = 200))).map noteEntry := by
    rw [notesByTrackIDByTime_apply]
    rfl
  have hfil : [c5note].filter (fun n => decide (roundedTime n = 200)) =
      [c5note] := by
    simp [hr]
  have hd : c5out ∈ notesAtTick (notesByTrackIDByTime c5song) [0] 1000 200 := by
    have hlist : notesAtTick (notesByTrackIDByTime c5song) [0] 1000 200 =
        [c5out] := by
      rw [notesAtTick]
      simp only [List.map_cons, List.map_nil]
      rw [hbm, hfil]
      rfl
    rw [hlist]
    exact List.mem_singleton.mpr rfl
  obtain ⟨tid, htid, tr, hget, n, hn, hrt, hdeq⟩ :=
    c5_dispatch_raw_time c5song [0] 1000 200 c5out hd
  exact ⟨⟨tid, htid, tr, hget, n, hn, hrt, hdeq⟩, by norm_num [c5out],
    by norm_num⟩

/-- Claim C9: `playStartingTime$` fires exactly on a decoded song
arriving (a play submission completing ingestion) and on an explicit
`CHANGE_PLAYBACK_STATUS = PLAYING` request; each firing records the
monotonic `performance.now()` reading, and the tick stream begun for a
song of duration `d` seconds emits exactly the offsets `i * 100` with
`i * 100 < d * 1000`. -/
theorem c9_play_transitions (trace : List (Event × ℚ)) (e : Event)
    (now d : ℚ) (N i : ℕ) :
    playStartingTime (trace ++ [(e, now)]) =
      playStartingTime trace ++ (if isPlayTrigger e then [now] else []) ∧
    (isPlayTrigger e = true ↔
      (∃ m, e = .songDecoded m) ∨ e = .changeStatus .PLAYING) ∧
    (d * 1000 ≤ 100 * N →
      (i * 100 ∈ emittedTicks d N ↔ (i : ℚ) * 100 < d * 1000)) := by
  refine ⟨?_, ?_, ?_⟩
  · rw [playStartingTime, playStartingTime, List.filterMap_append]
    congr 1
    cases h : isPlayTrigger e <;> simp [h]
  · cases e with
    | songDecoded m => simp [isPlayTrigger]
    | changeStatus st =>
        cases st <;> simp [isPlayTrigger]
    | playSong s => simp [isPlayTrigger]
    | changeTrackActiveStatus id active => simp [isPlayTrigger]
    | changeActiveTracks req => simp [isPlayTrigger]
    | updateStatuses => simp [isPlayTrigger]
    | availability b => simp [isPlayTrigger]
  · intro h
    rw [emittedTicks_eq d N h]
    constructor
    · intro hmem
      rw [List.mem_map] at hmem
      obtain ⟨j, hj, hji⟩ := hmem
      rw [List.mem_range] at hj
      have hij : j = i := by omega
      subst hij
      have := (tickPred_iff d j).mpr hj
      rw [decide_eq_true_eq] at this
      have hc : ((j * 100 : ℕ) : ℚ) = (j : ℚ) * 100 := by push_cast; ring
      rw [hc] at this
      linarith
    · intro hlt
      rw [List.mem_map]
      refine ⟨i, ?_, rfl⟩
      rw [List.mem_range]
      have : (decide (d * 1000 > ((i * 100 : ℕ) : ℚ)) = true) := by
        rw [decide_eq_true_eq]
        have hc : ((i * 100 : ℕ) : ℚ) = (i : ℚ) * 100 := by push_cast; ring
        rw [hc]
        linarith
      exact (tickPred_iff d i).mp this

/-- Witness for C9: an explicit `PLAYING` request at monotonic time 7
appends exactly one start record, and for a 500 ms song tick `200` is
emitted. -/
theorem c9_play_transitions_witness :
    playStartingTime [(.changeStatus .PLAYING, 7)] =
      playStartingTime [] ++ (if isPlayTrigger (.changeStatus .PLAYING)
        then [(7 : ℚ)] else []) ∧
    ((2 : ℕ) * 100 ∈ emittedTicks (1/2) 10 ↔ ((2 : ℕ) : ℚ) * 100 < (1/2) * 1000) := by
  obtain ⟨h1, _, h3⟩ :=
    c9_play_transitions [] (.changeStatus .PLAYING) 7 (1/2) 10 2
  exact ⟨h1, h3 (by norm_num)⟩

/-- Claim C10 fails on the code: on an explicit
`CHANGE_PLAYBACK_STATUS = PLAYING` request the `instrumentConnection`
sink emits the request's payload (the `PLAYING` status value), not the
SongRef — no SongRef at all is emitted for such a transition. -/
theorem c10_connection_counterexample :
    instrumentConnection [.changeStatus .PLAYING] =
      [none, some (Sum.inr PlaybackStatus.PLAYING)] ∧
    (instrumentConnection [.changeStatus .PLAYING]).filterMap
      (fun o => o.bind (fun x => x.getLeft?)) = ([] : List Song) :=
  ⟨rfl, rfl⟩

/-- Claim C10, amended: the connection-interest sink starts with "no
interest" (`undefined`), emits the SongRef on every `PLAY_SONG`
request, and on every explicit `CHANGE_PLAYBACK_STATUS = PLAYING`
request emits that request's payload (the `PLAYING` status value), not
the SongRef; nothing else emits. -/
theorem c10_connection_amended (evs : List Event) (e : Event) :
    (instrumentConnection evs).head? = some none ∧
    instrumentConnection (evs ++ [e]) =
      instrumentConnection evs ++
        (match e with
         | .playSong s => [some (Sum.inl s)]
         | .changeStatus st =>
             if st = PlaybackStatus.PLAYING then [some (Sum.inr st)] else []
         | _ => []) := by
  constructor
  · rfl
  · rw [instrumentConnection, instrumentConnection, List.filterMap_append,
      List.cons_append]
    congr 1
    cases e with
    | playSong s => rfl
    | changeStatus st => cases st <;> rfl
    | changeTrackActiveStatus id active => rfl
    | changeActiveTracks req => rfl
    | updateStatuses => rfl
    | availability b => rfl
    | songDecoded m => rfl

end Midicast
